import Mathlib

/-!
Verification development for the watched-state reconciler
`Contents/Scripts/watched-sync.py` (ShokoRelay.bundle).

The script is a linear pipeline: CLI argument validation, Plex
authentication (primary account plus optional extra users), Shoko
authentication, then a loop over accounts / libraries / episodes /
file parts that looks each file up on Shoko by filename suffix and,
when Shoko has no definite watched state for it, posts
`Watched/true` for every episode id under the first series group of
the lookup result.

The embedding below is shallow: external services are an abstract
`World` (which lookups succeed, which posts succeed, …) and the run
produces an exit code together with a trace of events (network
calls, logged errors, progress lines), following the control flow of
the script line by line.
-/

namespace WatchedSync

/-! ### CLI relative-date validation

The script accepts one optional argument validated by
`re.match('^(?:[1-9]|[1-9][0-9]|[1-9][0-9][0-9])(?:m|h|d|w|mon|y)$', ...)`:
one to three decimal digits with no leading zero (an integer 1–999)
followed by a unit suffix. -/

/-- Decimal digit `'0'`–`'9'` (regex class `[0-9]`). -/
def isDigit09 (c : Char) : Bool := decide ('0' ≤ c) && decide (c ≤ '9')

/-- Nonzero decimal digit `'1'`–`'9'` (regex class `[1-9]`). -/
def isDigit19 (c : Char) : Bool := decide ('1' ≤ c) && decide (c ≤ '9')

/-- The unit suffixes of the regex alternation `(?:m|h|d|w|mon|y)`. -/
def unitSuffixes : List (List Char) := [['m'], ['h'], ['d'], ['w'], ['m', 'o', 'n'], ['y']]

/-- Whether `s` is exactly one of the unit suffixes. -/
def isUnitSuffix (s : List Char) : Bool :=
  s = ['m'] || s = ['h'] || s = ['d'] || s = ['w'] || s = ['m', 'o', 'n'] || s = ['y']

/-- Tail after two leading digits: a third digit followed by a unit suffix. -/
def validTail2 : List Char → Bool
  | [] => false
  | c3 :: rest3 => isDigit09 c3 && isUnitSuffix rest3

/-- Tail after one leading digit: a second digit followed by either a unit
suffix or a third digit and a unit suffix. -/
def validTail1 : List Char → Bool
  | [] => false
  | c2 :: rest2 => isDigit09 c2 && (isUnitSuffix rest2 || validTail2 rest2)

/-- The full regex on a character list: a nonzero digit followed by a unit
suffix, or by one or two further digits and a unit suffix. -/
def validRelChars : List Char → Bool
  | [] => false
  | c1 :: rest => isDigit19 c1 && (isUnitSuffix rest || validTail1 rest)

/-- Python regex `$` (without `re.MULTILINE`) also matches just before a
newline that ends the string: the reversed character list starts with
`'\n'` and the remainder, reversed back, matches the core pattern. -/
def trailingNewlineCase : List Char → Bool
  | [] => false
  | c :: rest => decide (c = '\n') && validRelChars rest.reverse

/-- The check `re.match('^(?:[1-9]|[1-9][0-9]|[1-9][0-9][0-9])(?:m|h|d|w|mon|y)$', s)`
from line 42 of `watched-sync.py`, with Python's `$` semantics: the whole
string matches the core pattern, or everything up to a single trailing
newline does. -/
def validRelativeDate (s : String) : Bool :=
  validRelChars s.toList || trailingNewlineCase s.toList.reverse

/-- The character for decimal digit `d`. -/
def digitChar (d : Nat) : Char := Char.ofNat (48 + d)

/-- The decimal digit characters of `n < 1000`. -/
def reprChars (n : Nat) : List Char :=
  if n < 10 then [digitChar n]
  else if n < 100 then [digitChar (n / 10), digitChar (n % 10)]
  else [digitChar (n / 100), digitChar (n / 10 % 10), digitChar (n % 10)]

/-- The spec's description of a well-formed CLI argument: the decimal
numeral of an integer 1–999 followed by a unit in {m, h, d, w, mon, y}. -/
def specRelForm (s : String) : Prop :=
  ∃ n u, 1 ≤ n ∧ n ≤ 999 ∧ u ∈ unitSuffixes ∧ s = Nat.repr n ++ String.mk u

/-- A spec-form argument followed by one trailing newline — the extra
family of strings Python's `$` anchor lets the script accept. -/
def specRelFormNL (s : String) : Prop :=
  ∃ t, specRelForm t ∧ s = t ++ "\n"

set_option maxRecDepth 10000 in
theorem repr_eq_reprChars_aux :
    (List.range 1000).all (fun n => Nat.repr n == String.mk (reprChars n)) = true := by decide

theorem repr_eq_reprChars {n : Nat} (h : n < 1000) : Nat.repr n = String.mk (reprChars n) := by
  have := List.all_eq_true.mp repr_eq_reprChars_aux n (List.mem_range.mpr h)
  exact eq_of_beq this

theorem isDigit09_bounds {c : Char} (h : isDigit09 c = true) :
    48 ≤ c.toNat ∧ c.toNat ≤ 57 := by
  simp only [isDigit09, Bool.and_eq_true, decide_eq_true_eq] at h
  exact ⟨h.1, h.2⟩

theorem isDigit19_bounds {c : Char} (h : isDigit19 c = true) :
    49 ≤ c.toNat ∧ c.toNat ≤ 57 := by
  simp only [isDigit19, Bool.and_eq_true, decide_eq_true_eq] at h
  exact ⟨h.1, h.2⟩

theorem digit_eq_digitChar {c : Char} (h : isDigit09 c = true) :
    c = digitChar (c.toNat - 48) := by
  obtain ⟨h1, _⟩ := isDigit09_bounds h
  have : 48 + (c.toNat - 48) = c.toNat := by omega
  rw [digitChar, this, Char.ofNat_toNat]

theorem isDigit19_isDigit09 {c : Char} (h : isDigit19 c = true) : isDigit09 c = true := by
  obtain ⟨h1, h2⟩ := isDigit19_bounds h
  simp only [isDigit09, Bool.and_eq_true, decide_eq_true_eq]
  exact ⟨by exact (by omega : 48 ≤ c.toNat), h2⟩

theorem isDigit09_digitChar {d : Nat} (h : d ≤ 9) : isDigit09 (digitChar d) = true := by
  interval_cases d <;> decide

theorem isDigit19_digitChar {d : Nat} (h1 : 1 ≤ d) (h2 : d ≤ 9) :
    isDigit19 (digitChar d) = true := by
  interval_cases d <;> decide

theorem isUnitSuffix_of_mem {u : List Char} (h : u ∈ unitSuffixes) :
    isUnitSuffix u = true := by
  simp only [unitSuffixes, List.mem_cons, List.not_mem_nil, or_false] at h
  rcases h with rfl | rfl | rfl | rfl | rfl | rfl <;> decide

theorem isUnitSuffix_mem {u : List Char} (h : isUnitSuffix u = true) : u ∈ unitSuffixes := by
  simp only [isUnitSuffix, Bool.or_eq_true, decide_eq_true_eq] at h
  simp only [unitSuffixes, List.mem_cons, List.not_mem_nil, or_false]
  tauto

theorem validRelChars_form {l : List Char} (h : validRelChars l = true) :
    ∃ n u, 1 ≤ n ∧ n ≤ 999 ∧ u ∈ unitSuffixes ∧ l = reprChars n ++ u := by
  match l with
  | [] => simp [validRelChars] at h
  | c1 :: rest =>
    simp only [validRelChars, Bool.and_eq_true, Bool.or_eq_true] at h
    obtain ⟨hd1, hrest⟩ := h
    obtain ⟨h49, h57⟩ := isDigit19_bounds hd1
    have hc1 : c1 = digitChar (c1.toNat - 48) := digit_eq_digitChar (isDigit19_isDigit09 hd1)
    rcases hrest with hu | htail
    · refine ⟨c1.toNat - 48, rest, by omega, by omega, isUnitSuffix_mem hu, ?_⟩
      rw [reprChars, if_pos (by omega : c1.toNat - 48 < 10)]
      rw [← hc1]; rfl
    · match rest with
      | [] => simp [validTail1] at htail
      | c2 :: rest2 =>
        simp only [validTail1, Bool.and_eq_true, Bool.or_eq_true] at htail
        obtain ⟨hd2, hrest2⟩ := htail
        obtain ⟨h48b, h57b⟩ := isDigit09_bounds hd2
        have hc2 : c2 = digitChar (c2.toNat - 48) := digit_eq_digitChar hd2
        rcases hrest2 with hu | htail2
        · refine ⟨10 * (c1.toNat - 48) + (c2.toNat - 48), rest2, by omega, by omega,
            isUnitSuffix_mem hu, ?_⟩
          rw [reprChars, if_neg (by omega), if_pos (by omega)]
          have e1 : (10 * (c1.toNat - 48) + (c2.toNat - 48)) / 10 = c1.toNat - 48 := by omega
          have e2 : (10 * (c1.toNat - 48) + (c2.toNat - 48)) % 10 = c2.toNat - 48 := by omega
          rw [e1, e2, ← hc1, ← hc2]; rfl
        · match rest2 with
          | [] => simp [validTail2] at htail2
          | c3 :: rest3 =>
            simp only [validTail2, Bool.and_eq_true] at htail2
            obtain ⟨hd3, hu⟩ := htail2
            obtain ⟨h48c, h57c⟩ := isDigit09_bounds hd3
            have hc3 : c3 = digitChar (c3.toNat - 48) := digit_eq_digitChar hd3
            refine ⟨100 * (c1.toNat - 48) + 10 * (c2.toNat - 48) + (c3.toNat - 48), rest3,
              by omega, by omega, isUnitSuffix_mem hu, ?_⟩
            rw [reprChars, if_neg (by omega), if_neg (by omega)]
            have e1 : (100 * (c1.toNat - 48) + 10 * (c2.toNat - 48) + (c3.toNat - 48)) / 100
                = c1.toNat - 48 := by omega
            have e2 : (100 * (c1.toNat - 48) + 10 * (c2.toNat - 48) + (c3.toNat - 48)) / 10 % 10
                = c2.toNat - 48 := by omega
            have e3 : (100 * (c1.toNat - 48) + 10 * (c2.toNat - 48) + (c3.toNat - 48)) % 10
                = c3.toNat - 48 := by omega
            rw [e1, e2, e3, ← hc1, ← hc2, ← hc3]; rfl

theorem validRelChars_append {n : Nat} {u : List Char} (h1 : 1 ≤ n) (h2 : n ≤ 999)
    (hu : u ∈ unitSuffixes) : validRelChars (reprChars n ++ u) = true := by
  have hus := isUnitSuffix_of_mem hu
  by_cases ha : n < 10
  · rw [reprChars, if_pos ha]
    simp [validRelChars, isDigit19_digitChar h1 (by omega), hus]
  · by_cases hb : n < 100
    · rw [reprChars, if_neg ha, if_pos hb]
      simp [validRelChars, validTail1, isDigit19_digitChar (by omega : 1 ≤ n / 10) (by omega),
        isDigit09_digitChar (by omega : n % 10 ≤ 9), hus]
    · rw [reprChars, if_neg ha, if_neg hb]
      simp [validRelChars, validTail1, validTail2,
        isDigit19_digitChar (by omega : 1 ≤ n / 100) (by omega),
        isDigit09_digitChar (by omega : n / 10 % 10 ≤ 9),
        isDigit09_digitChar (by omega : n % 10 ≤ 9), hus]

theorem specRelForm_mk {l : List Char} (h : validRelChars l = true) :
    specRelForm (String.mk l) := by
  obtain ⟨n, u, h1, h2, hu, rfl⟩ := validRelChars_form h
  refine ⟨n, u, h1, h2, hu, ?_⟩
  rw [repr_eq_reprChars (by omega : n < 1000)]
  rfl

theorem specRelForm_validRelChars {s : String} (h : specRelForm s) :
    validRelChars s.toList = true := by
  obtain ⟨n, u, h1, h2, hu, rfl⟩ := h
  have ht : (Nat.repr n ++ String.mk u).toList = reprChars n ++ u := by
    rw [repr_eq_reprChars (by omega : n < 1000)]
    rfl
  rw [ht]
  exact validRelChars_append h1 h2 hu

/-- The script's acceptance test characterized against the spec: it accepts
exactly the spec-form strings `<integer 1–999><unit>` and those same
strings followed by a single trailing newline (where Python's `$` anchor
also matches). -/
theorem validRelativeDate_iff (s : String) :
    validRelativeDate s = true ↔ specRelForm s ∨ specRelFormNL s := by
  rw [validRelativeDate, Bool.or_eq_true]
  constructor
  · intro h
    rcases h with h | h
    · exact Or.inl (specRelForm_mk h)
    · right
      cases hrev : s.toList.reverse with
      | nil => rw [hrev] at h; cases h
      | cons c rest =>
        rw [hrev] at h
        simp only [trailingNewlineCase, Bool.and_eq_true, decide_eq_true_eq] at h
        obtain ⟨hc, hcore⟩ := h
        subst hc
        refine ⟨String.mk rest.reverse, specRelForm_mk hcore, ?_⟩
        have hs : s.toList = rest.reverse ++ ['\n'] := by
          have h3 : s.toList = s.toList.reverse.reverse := (List.reverse_reverse _).symm
          rw [h3, hrev, List.reverse_cons]
        calc s = String.mk s.toList := rfl
          _ = String.mk (rest.reverse ++ ['\n']) := by rw [hs]
          _ = String.mk rest.reverse ++ "\n" := rfl
  · intro h
    rcases h with h | h
    · exact Or.inl (specRelForm_validRelChars h)
    · right
      obtain ⟨t, ht, rfl⟩ := h
      have hs : (t ++ "\n").toList.reverse = '\n' :: t.toList.reverse := by
        have h3 : (t ++ "\n").toList = t.toList ++ ['\n'] := rfl
        rw [h3, List.reverse_append]
        rfl
      rw [hs]
      simp only [trailingNewlineCase, Bool.and_eq_true, decide_eq_true_eq]
      refine ⟨trivial, ?_⟩
      rw [List.reverse_reverse]
      exact specRelForm_validRelChars ht

/-! ### File paths

Line 99: `filepath = os.path.sep + os.path.basename(episode_path.file)`.
`os.path.sep` is `/` on POSIX and `os.path.basename` keeps everything
after the last separator. -/

/-- Python `os.path.basename` on a POSIX path: everything after the last `/`. -/
def basename (p : String) : String :=
  String.mk ((p.toList.reverse.takeWhile (fun c => c != '/')).reverse)

/-- Line 99: the filename-suffix key sent to `File/PathEndsWith`. -/
def filepathKey (p : String) : String := "/" ++ basename p

/-- Modelled from the spec: the tracking server's `PathEndsWith` endpoint
matches a stored path when it ends with the query key (suffix comparison);
the endpoint itself is Shoko Server code, external to this repository. -/
def shokoSuffixMatch (stored key : String) : Bool :=
  key.toList.isSuffixOf stored.toList

/-! ### Data model of the lookup result and the abstract world -/

/-- One entry of an `EpisodeIDs` array: `EpisodeID["ID"]`. -/
structure EpisodeIDEntry where
  ID : Nat
deriving DecidableEq

/-- One entry of the `SeriesIDs` array of a lookup match. -/
structure SeriesIDGroup where
  EpisodeIDs : List EpisodeIDEntry
deriving DecidableEq

/-- One element of the JSON array returned by `/api/v3/File/PathEndsWith`:
`Watched` is `none` when Shoko has no watched state for the file (JSON
`null`), `some b` when it holds a definite watched/unwatched state. -/
structure FileMatch where
  Watched : Option Bool
  SeriesIDs : List SeriesIDGroup
deriving DecidableEq

/-- A file part of a Plex episode (`episode.iterParts()` element). -/
structure Part where
  file : String
deriving DecidableEq

/-- A Plex episode returned by `searchEpisodes`. -/
structure Episode where
  title : String
  parts : List Part
deriving DecidableEq

/-- The network calls the script can issue. -/
inductive NetCall where
  | plexAuth
  | userResolve (name : String)
  | switchUser (name : String)
  | shokoAuth
  | serverConnect (account : String)
  | searchEpisodes (account library lastViewedAfter : String)
  | pathLookup (key : String)
  | episodeWatchedPost (id : Nat) (value : Bool)
deriving DecidableEq

/-- Observable events of a run: network calls, error lines, progress lines. -/
inductive Event where
  | net (c : NetCall)
  | err (msg : String)
  | info (msg : String)
deriving DecidableEq

/-- The configuration read from `config.py` (the parts the control flow
depends on). -/
structure Config where
  serverName : String
  libraryNames : List String
  extraUsers : Option (List String)

/-- Abstract outcomes of the external services: which calls succeed and
what the remote services return. -/
structure World where
  primaryAuthOk : Bool
  resolveUserOk : String → Bool
  shokoReachable : Bool
  shokoStatus : Option Nat
  serverConnectOk : String → Bool
  sectionOk : String → String → Bool
  episodes : String → String → List Episode
  lookup : String → List FileMatch
  postOk : Nat → Bool

/-! ### The run

Loops are sequenced with `Except (List Event) (List Event)`: an
`Except.error` models an uncaught Python exception aborting the program
(exit status 1); both constructors carry the event trace produced so far. -/

/-- Sequence the iterations of a `for` loop, aborting on an uncaught
exception and concatenating the event traces. -/
def seqRun {α : Type} (f : α → Except (List Event) (List Event)) :
    List α → Except (List Event) (List Event)
  | [] => Except.ok []
  | x :: rest =>
    match f x with
    | Except.error e => Except.error e
    | Except.ok e =>
      match seqRun f rest with
      | Except.error e2 => Except.error (e ++ e2)
      | Except.ok e2 => Except.ok (e ++ e2)

/-- The hint printed by line 107. -/
def relayHint : String := "Failed: Make sure that the video file listed above is matched by Shoko"

/-- Lines 104–105: the `for EpisodeID in ...: requests.post(...)` loop.
Returns the post events issued and whether the loop finished without an
exception (a failing post raises, ending the loop early). -/
def relayLoop (w : World) : List EpisodeIDEntry → List Event × Bool
  | [] => ([], true)
  | e :: rest =>
    if w.postOk e.ID then
      let r := relayLoop w rest
      (Event.net (NetCall.episodeWatchedPost e.ID true) :: r.1, r.2)
    else ([Event.net (NetCall.episodeWatchedPost e.ID true)], false)

/-- Lines 99–107: processing of one file part of one episode.
`Except.error` is an uncaught exception: with an empty lookup result,
`path_ends_with[0]` raises `IndexError` outside the `try` block. An
exception inside the relay loop (`SeriesIDs` empty, or a failing post) is
caught by the `except` on line 106 and logged with `relayHint`. -/
def processPart (w : World) (ep : Episode) (part : Part) :
    Except (List Event) (List Event) :=
  let key := filepathKey part.file
  let lookupEv := Event.net (NetCall.pathLookup key)
  match w.lookup key with
  | [] => Except.error [lookupEv]
  | m :: _ =>
    match m.Watched with
    | some _ => Except.ok [lookupEv]
    | none =>
      let relayInfo := Event.info ("Relaying: " ++ key ++ " → " ++ ep.title)
      match m.SeriesIDs with
      | [] => Except.ok [lookupEv, relayInfo, Event.err relayHint]
      | g :: _ =>
        let r := relayLoop w g.EpisodeIDs
        if r.2 then Except.ok (lookupEv :: relayInfo :: r.1)
        else Except.ok (lookupEv :: relayInfo :: (r.1 ++ [Event.err relayHint]))

/-- Lines 87–108: one library of one account. A failing section lookup is
logged and skipped (`continue`); otherwise every episode's parts are
processed and `Finished!` is printed. -/
def processLibrary (w : World) (cfg : Config) (relDate acct library : String) :
    Except (List Event) (List Event) :=
  let qInfo := Event.info ("Querying: " ++ acct ++ " @ " ++ cfg.serverName ++ "/" ++ library)
  if w.sectionOk acct library then
    let searchEv := Event.net (NetCall.searchEpisodes acct library relDate)
    match seqRun (fun ep => seqRun (processPart w ep) ep.parts) (w.episodes acct library) with
    | Except.error e => Except.error (qInfo :: searchEv :: e)
    | Except.ok e => Except.ok (qInfo :: searchEv :: (e ++ [Event.info "Finished!"]))
  else Except.ok [qInfo, Event.err ("Failed: " ++ library)]

/-- Lines 81–108: one account. A failing server connect prints an error
and calls `exit(1)` (modelled as an abort). -/
def processAccount (w : World) (cfg : Config) (relDate acct : String) :
    Except (List Event) (List Event) :=
  let connectEv := Event.net (NetCall.serverConnect acct)
  if w.serverConnectOk acct then
    match seqRun (processLibrary w cfg relDate acct) cfg.libraryNames with
    | Except.error e => Except.error (connectEv :: e)
    | Except.ok e => Except.ok (connectEv :: e)
  else Except.error [connectEv, Event.err "Failed: Server Name Not Found"]

/-- The first configured extra user that fails to resolve, if any. -/
def firstUnresolved (w : World) : List String → Option String
  | [] => none
  | u :: rest => if w.resolveUserOk u then firstUnresolved w rest else some u

/-- The `admin.user(username)` calls of the list comprehension on line 62:
they are attempted left to right and stop at the first failure (the
comprehension raises there). -/
def resolveAttemptEvents (w : World) : List String → List Event
  | [] => []
  | u :: rest =>
    Event.net (NetCall.userResolve u) ::
      (if w.resolveUserOk u then resolveAttemptEvents w rest else [])

/-- Lines 59–66: build the account list. The whole extra-user block is one
`try`: if any configured user fails to resolve, the exception aborts the
block before any extra account is appended, one error is printed, and the
run continues with the admin account alone. -/
def setupAccounts (w : World) (cfg : Config) : List String × List Event :=
  match cfg.extraUsers with
  | none => (["admin"], [])
  | some users =>
    if users.isEmpty then (["admin"], [])
    else
      match firstUnresolved w users with
      | none =>
        ("admin" :: users,
          resolveAttemptEvents w users ++ users.map (fun u => Event.net (NetCall.switchUser u)))
      | some u => (["admin"], resolveAttemptEvents w users ++ [Event.err ("Failed: " ++ u)])

/-- Lines 75–77: `'status' in auth and auth['status'] in (400, 401)`. -/
def shokoStatusBad : Option Nat → Bool
  | some s => s == 400 || s == 401
  | none => false

/-- Lines 49–110: the script body after CLI validation, with `relDate` the
value of `relative_date`. Returns the exit code and the event trace. -/
def runAuthed (w : World) (cfg : Config) (relDate : String) : Nat × List Event :=
  let authEv := Event.net NetCall.plexAuth
  if w.primaryAuthOk then
    let sa := setupAccounts w cfg
    let shokoEv := Event.net NetCall.shokoAuth
    if w.shokoReachable then
      if shokoStatusBad w.shokoStatus then
        (1, authEv :: (sa.2 ++ [shokoEv, Event.err "Failed: Shoko Credentials Invalid"]))
      else
        let startInfo := Event.info "ShokoRelay Watched Sync"
        match seqRun (processAccount w cfg relDate) sa.1 with
        | Except.error e => (1, authEv :: (sa.2 ++ (shokoEv :: startInfo :: e)))
        | Except.ok e =>
          (0, authEv :: (sa.2 ++ (shokoEv :: startInfo ::
            (e ++ [Event.info "Watched Sync Complete"]))))
    else (1, authEv :: (sa.2 ++ [shokoEv, Event.err "Failed: Unable to Connect to Shoko Server"]))
  else (1, [authEv, Event.err "Failed: Plex Credentials Invalid or Server Offline"])

/-- Lines 40–46 and onward: the whole script. `argv` models `sys.argv[1:]`,
so validation runs only when exactly one argument is supplied
(`len(sys.argv) == 2`); otherwise `relative_date` keeps its default
`'999y'`. -/
def run (w : World) (cfg : Config) (argv : List String) : Nat × List Event :=
  match argv with
  | [a] =>
    if validRelativeDate a then runAuthed w cfg a
    else (1, [Event.err "Failed: Invalid Argument (Relative Date)"])
  | _ => runAuthed w cfg "999y"

/-! ### Trace observations -/

/-- The events of either outcome of a loop run. -/
def exEvents : Except (List Event) (List Event) → List Event
  | Except.error e => e
  | Except.ok e => e

/-- Whether an event is a network call. -/
def isNet : Event → Bool
  | Event.net _ => true
  | _ => false

/-- The watched-flag write calls (`Episode/{id}/Watched/{value}` posts)
of a trace, in order. -/
def posts (tr : List Event) : List (Nat × Bool) :=
  tr.filterMap fun e =>
    match e with
    | Event.net (NetCall.episodeWatchedPost i v) => some (i, v)
    | _ => none

/-- Write calls that set a watched flag to `false`. -/
def isFalsePost : Event → Bool
  | Event.net (NetCall.episodeWatchedPost _ v) => !v
  | _ => false

/-- The `lastViewedAt` lower-bound filters of the episode searches of a
trace. -/
def searchFilters (tr : List Event) : List String :=
  tr.filterMap fun e =>
    match e with
    | Event.net (NetCall.searchEpisodes _ _ rd) => some rd
    | _ => none

/-- The number of logged error lines of a trace. -/
def countErr (tr : List Event) : Nat :=
  tr.countP fun e =>
    match e with
    | Event.err _ => true
    | _ => false

/-- An event compatible with a run whose relative date is `relDate`: any
watched-flag post carries `true` and any episode search carries `relDate`
as its lower-bound filter. -/
def benign (relDate : String) : Event → Bool
  | Event.net (NetCall.episodeWatchedPost _ v) => v
  | Event.net (NetCall.searchEpisodes _ _ rd) => rd == relDate
  | _ => true

/-! ### Helper lemmas about the loop combinators -/

theorem exEvents_seqRun {α : Type} (f : α → Except (List Event) (List Event)) (l : List α)
    {ev : Event} (h : ev ∈ exEvents (seqRun f l)) : ∃ x ∈ l, ev ∈ exEvents (f x) := by
  induction l with
  | nil => simp [seqRun, exEvents, List.mem_nil_iff] at h
  | cons a rest ih =>
    rcases hf : f a with e | e <;> rcases hr : seqRun f rest with e2 | e2 <;>
      rw [hr] at ih <;> simp only [seqRun, hf, hr, exEvents] at h ⊢
    · exact ⟨a, by simp, by rw [hf]; exact h⟩
    · exact ⟨a, by simp, by rw [hf]; exact h⟩
    · rcases List.mem_append.mp h with h' | h'
      · exact ⟨a, by simp, by simp [hf, exEvents, h']⟩
      · obtain ⟨x, hx, hx2⟩ := ih h'
        exact ⟨x, by simp [hx], hx2⟩
    · rcases List.mem_append.mp h with h' | h'
      · exact ⟨a, by simp, by simp [hf, exEvents, h']⟩
      · obtain ⟨x, hx, hx2⟩ := ih h'
        exact ⟨x, by simp [hx], hx2⟩

theorem seqRun_ok_of_all {α : Type} (f : α → Except (List Event) (List Event)) (l : List α)
    (h : ∀ x ∈ l, ∃ e, f x = Except.ok e) :
    ∃ e, seqRun f l = Except.ok e ∧ ∀ x ∈ l, ∀ ev ∈ exEvents (f x), ev ∈ e := by
  induction l with
  | nil => exact ⟨[], rfl, by simp⟩
  | cons a rest ih =>
    obtain ⟨ea, hfa⟩ := h a (by simp)
    obtain ⟨er, hr, hmem⟩ := ih (fun x hx => h x (by simp [hx]))
    refine ⟨ea ++ er, by simp only [seqRun, hfa, hr], ?_⟩
    intro x hx ev hev
    rcases List.mem_cons.mp hx with rfl | hx'
    · rw [hfa] at hev
      exact List.mem_append.mpr (Or.inl (by simpa [exEvents] using hev))
    · exact List.mem_append.mpr (Or.inr (hmem x hx' ev hev))

theorem relayLoop_events (w : World) (ids : List EpisodeIDEntry) {ev : Event}
    (h : ev ∈ (relayLoop w ids).1) :
    ∃ e ∈ ids, ev = Event.net (NetCall.episodeWatchedPost e.ID true) := by
  induction ids with
  | nil => simp [relayLoop] at h
  | cons a rest ih =>
    cases hp : w.postOk a.ID with
    | true =>
      simp only [relayLoop, hp, if_true] at h
      rcases List.mem_cons.mp h with rfl | h'
      · exact ⟨a, by simp, rfl⟩
      · obtain ⟨e, he, heq⟩ := ih h'
        exact ⟨e, by simp [he], heq⟩
    | false =>
      simp only [relayLoop, hp, Bool.false_eq_true, if_false, List.mem_singleton] at h
      exact ⟨a, by simp, h⟩

theorem relayLoop_all_ok (w : World) (ids : List EpisodeIDEntry)
    (h : ∀ e ∈ ids, w.postOk e.ID = true) :
    relayLoop w ids
      = (ids.map (fun e => Event.net (NetCall.episodeWatchedPost e.ID true)), true) := by
  induction ids with
  | nil => rfl
  | cons a rest ih =>
    have ha : w.postOk a.ID = true := h a (by simp)
    simp [relayLoop, ha, ih (fun e he => h e (by simp [he]))]

/-! ### Characterizations of the per-file step -/

theorem processPart_empty (w : World) (ep : Episode) (part : Part)
    (hl : w.lookup (filepathKey part.file) = []) :
    processPart w ep part
      = Except.error [Event.net (NetCall.pathLookup (filepathKey part.file))] := by
  simp only [processPart, hl]

theorem processPart_definite (w : World) (ep : Episode) (part : Part)
    {m : FileMatch} {rest : List FileMatch} {b : Bool}
    (hl : w.lookup (filepathKey part.file) = m :: rest) (hw : m.Watched = some b) :
    processPart w ep part = Except.ok [Event.net (NetCall.pathLookup (filepathKey part.file))] := by
  simp only [processPart, hl, hw]

theorem processPart_unmatched (w : World) (ep : Episode) (part : Part)
    {m : FileMatch} {rest : List FileMatch}
    (hl : w.lookup (filepathKey part.file) = m :: rest) (hw : m.Watched = none)
    (hs : m.SeriesIDs = []) :
    processPart w ep part = Except.ok
      [Event.net (NetCall.pathLookup (filepathKey part.file)),
       Event.info ("Relaying: " ++ filepathKey part.file ++ " → " ++ ep.title),
       Event.err relayHint] := by
  simp only [processPart, hl, hw, hs]

theorem processPart_relay (w : World) (ep : Episode) (part : Part)
    {m : FileMatch} {rest : List FileMatch} {g : SeriesIDGroup} {grest : List SeriesIDGroup}
    (hl : w.lookup (filepathKey part.file) = m :: rest) (hw : m.Watched = none)
    (hs : m.SeriesIDs = g :: grest) :
    processPart w ep part =
      (if (relayLoop w g.EpisodeIDs).2 then
        Except.ok (Event.net (NetCall.pathLookup (filepathKey part.file)) ::
          Event.info ("Relaying: " ++ filepathKey part.file ++ " → " ++ ep.title) ::
          (relayLoop w g.EpisodeIDs).1)
      else
        Except.ok (Event.net (NetCall.pathLookup (filepathKey part.file)) ::
          Event.info ("Relaying: " ++ filepathKey part.file ++ " → " ++ ep.title) ::
          ((relayLoop w g.EpisodeIDs).1 ++ [Event.err relayHint]))) := by
  simp only [processPart, hl, hw, hs]

/-! ### Characterizations of the library / account / setup steps -/

theorem processLibrary_badSection (w : World) (cfg : Config) (relDate acct library : String)
    (hs : w.sectionOk acct library = false) :
    processLibrary w cfg relDate acct library = Except.ok
      [Event.info ("Querying: " ++ acct ++ " @ " ++ cfg.serverName ++ "/" ++ library),
       Event.err ("Failed: " ++ library)] := by
  simp only [processLibrary, hs, Bool.false_eq_true, if_false]

theorem processLibrary_goodSection (w : World) (cfg : Config) (relDate acct library : String)
    (hs : w.sectionOk acct library = true) :
    processLibrary w cfg relDate acct library =
      (match seqRun (fun ep => seqRun (processPart w ep) ep.parts) (w.episodes acct library) with
      | Except.error e => Except.error
          (Event.info ("Querying: " ++ acct ++ " @ " ++ cfg.serverName ++ "/" ++ library) ::
            Event.net (NetCall.searchEpisodes acct library relDate) :: e)
      | Except.ok e => Except.ok
          (Event.info ("Querying: " ++ acct ++ " @ " ++ cfg.serverName ++ "/" ++ library) ::
            Event.net (NetCall.searchEpisodes acct library relDate) ::
              (e ++ [Event.info "Finished!"]))) := by
  simp only [processLibrary, hs, if_true]

theorem processAccount_badConnect (w : World) (cfg : Config) (relDate acct : String)
    (hc : w.serverConnectOk acct = false) :
    processAccount w cfg relDate acct = Except.error
      [Event.net (NetCall.serverConnect acct), Event.err "Failed: Server Name Not Found"] := by
  simp only [processAccount, hc, Bool.false_eq_true, if_false]

theorem processAccount_goodConnect (w : World) (cfg : Config) (relDate acct : String)
    (hc : w.serverConnectOk acct = true) :
    processAccount w cfg relDate acct =
      (match seqRun (processLibrary w cfg relDate acct) cfg.libraryNames with
      | Except.error e => Except.error (Event.net (NetCall.serverConnect acct) :: e)
      | Except.ok e => Except.ok (Event.net (NetCall.serverConnect acct) :: e)) := by
  simp only [processAccount, hc, if_true]

theorem setupAccounts_noExtras (w : World) (cfg : Config) (h : cfg.extraUsers = none) :
    setupAccounts w cfg = (["admin"], []) := by
  simp only [setupAccounts, h]

theorem setupAccounts_emptyExtras (w : World) (cfg : Config) (h : cfg.extraUsers = some []) :
    setupAccounts w cfg = (["admin"], []) := by
  simp only [setupAccounts, h, List.isEmpty_nil, if_true]

theorem setupAccounts_allResolve (w : World) (cfg : Config) {users : List String}
    (h : cfg.extraUsers = some users) (hne : users ≠ [])
    (hok : firstUnresolved w users = none) :
    setupAccounts w cfg = ("admin" :: users,
      resolveAttemptEvents w users ++ users.map (fun u => Event.net (NetCall.switchUser u))) := by
  have he : users.isEmpty = false := by
    cases users with
    | nil => exact absurd rfl hne
    | cons a l => rfl
  simp only [setupAccounts, h, he, Bool.false_eq_true, if_false, hok]

theorem setupAccounts_failResolve (w : World) (cfg : Config) {users : List String} {u : String}
    (h : cfg.extraUsers = some users) (hu : firstUnresolved w users = some u) :
    setupAccounts w cfg
      = (["admin"], resolveAttemptEvents w users ++ [Event.err ("Failed: " ++ u)]) := by
  have he : users.isEmpty = false := by
    cases users with
    | nil => simp [firstUnresolved] at hu
    | cons a l => rfl
  simp only [setupAccounts, h, he, Bool.false_eq_true, if_false, hu]

/-! ### Characterizations of the top level -/

theorem runAuthed_authFail (w : World) (cfg : Config) (relDate : String)
    (ha : w.primaryAuthOk = false) :
    runAuthed w cfg relDate = (1, [Event.net NetCall.plexAuth,
      Event.err "Failed: Plex Credentials Invalid or Server Offline"]) := by
  simp only [runAuthed, ha, Bool.false_eq_true, if_false]

theorem runAuthed_shokoDown (w : World) (cfg : Config) (relDate : String)
    (ha : w.primaryAuthOk = true) (hr : w.shokoReachable = false) :
    runAuthed w cfg relDate = (1, Event.net NetCall.plexAuth :: ((setupAccounts w cfg).2 ++
      [Event.net NetCall.shokoAuth, Event.err "Failed: Unable to Connect to Shoko Server"])) := by
  simp only [runAuthed, ha, hr, if_true, Bool.false_eq_true, if_false]

theorem runAuthed_badStatus (w : World) (cfg : Config) (relDate : String)
    (ha : w.primaryAuthOk = true) (hr : w.shokoReachable = true)
    (hb : shokoStatusBad w.shokoStatus = true) :
    runAuthed w cfg relDate = (1, Event.net NetCall.plexAuth :: ((setupAccounts w cfg).2 ++
      [Event.net NetCall.shokoAuth, Event.err "Failed: Shoko Credentials Invalid"])) := by
  simp only [runAuthed, ha, hr, hb, if_true]

theorem runAuthed_abort (w : World) (cfg : Config) (relDate : String) {e : List Event}
    (ha : w.primaryAuthOk = true) (hr : w.shokoReachable = true)
    (hb : shokoStatusBad w.shokoStatus = false)
    (hq : seqRun (processAccount w cfg relDate) (setupAccounts w cfg).1 = Except.error e) :
    runAuthed w cfg relDate = (1, Event.net NetCall.plexAuth :: ((setupAccounts w cfg).2 ++
      (Event.net NetCall.shokoAuth :: Event.info "ShokoRelay Watched Sync" :: e))) := by
  simp only [runAuthed, ha, hr, hb, Bool.false_eq_true, if_false, if_true, hq]

theorem runAuthed_ok (w : World) (cfg : Config) (relDate : String) {e : List Event}
    (ha : w.primaryAuthOk = true) (hr : w.shokoReachable = true)
    (hb : shokoStatusBad w.shokoStatus = false)
    (hq : seqRun (processAccount w cfg relDate) (setupAccounts w cfg).1 = Except.ok e) :
    runAuthed w cfg relDate = (0, Event.net NetCall.plexAuth :: ((setupAccounts w cfg).2 ++
      (Event.net NetCall.shokoAuth :: Event.info "ShokoRelay Watched Sync" ::
        (e ++ [Event.info "Watched Sync Complete"])))) := by
  simp only [runAuthed, ha, hr, hb, Bool.false_eq_true, if_false, if_true, hq]

theorem run_oneArg_valid (w : World) (cfg : Config) {a : String}
    (h : validRelativeDate a = true) : run w cfg [a] = runAuthed w cfg a := by
  simp only [run, h, if_true]

theorem run_oneArg_invalid (w : World) (cfg : Config) {a : String}
    (h : validRelativeDate a = false) :
    run w cfg [a] = (1, [Event.err "Failed: Invalid Argument (Relative Date)"]) := by
  simp only [run, h, Bool.false_eq_true, if_false]

theorem run_noArg (w : World) (cfg : Config) : run w cfg [] = runAuthed w cfg "999y" := rfl

theorem run_manyArgs (w : World) (cfg : Config) (a b : String) (rest : List String) :
    run w cfg (a :: b :: rest) = runAuthed w cfg "999y" := rfl

/-! ### Every event of a run is benign -/

theorem processPart_benign (w : World) (ep : Episode) (part : Part) (relDate : String)
    {ev : Event} (h : ev ∈ exEvents (processPart w ep part)) : benign relDate ev = true := by
  cases hl : w.lookup (filepathKey part.file) with
  | nil =>
    rw [processPart_empty w ep part hl] at h
    simp only [exEvents, List.mem_singleton] at h
    subst h; rfl
  | cons m rest =>
    cases hw : m.Watched with
    | some b =>
      rw [processPart_definite w ep part hl hw] at h
      simp only [exEvents, List.mem_singleton] at h
      subst h; rfl
    | none =>
      cases hs : m.SeriesIDs with
      | nil =>
        rw [processPart_unmatched w ep part hl hw hs] at h
        simp only [exEvents, List.mem_cons, List.not_mem_nil, or_false] at h
        rcases h with rfl | rfl | rfl <;> rfl
      | cons g grest =>
        rw [processPart_relay w ep part hl hw hs] at h
        cases hloop : (relayLoop w g.EpisodeIDs).2 with
        | true =>
          simp only [hloop, if_true, exEvents, List.mem_cons] at h
          rcases h with rfl | rfl | h
          · rfl
          · rfl
          · obtain ⟨e, _, rfl⟩ := relayLoop_events w g.EpisodeIDs h
            rfl
        | false =>
          simp only [hloop, Bool.false_eq_true, if_false, exEvents, List.mem_cons,
            List.mem_append, List.mem_singleton, List.not_mem_nil, or_false] at h
          rcases h with rfl | rfl | h | rfl
          · rfl
          · rfl
          · obtain ⟨e, _, rfl⟩ := relayLoop_events w g.EpisodeIDs h
            rfl
          · rfl

theorem processLibrary_benign (w : World) (cfg : Config) (relDate acct library : String)
    {ev : Event} (h : ev ∈ exEvents (processLibrary w cfg relDate acct library)) :
    benign relDate ev = true := by
  cases hsec : w.sectionOk acct library with
  | false =>
    rw [processLibrary_badSection w cfg relDate acct library hsec] at h
    simp only [exEvents, List.mem_cons, List.not_mem_nil, or_false] at h
    rcases h with rfl | rfl <;> rfl
  | true =>
    rw [processLibrary_goodSection w cfg relDate acct library hsec] at h
    cases hq : seqRun (fun ep => seqRun (processPart w ep) ep.parts) (w.episodes acct library) with
    | error e =>
      rw [hq] at h
      simp only [exEvents, List.mem_cons] at h
      rcases h with rfl | rfl | h'
      · rfl
      · simp [benign]
      · have h2 : ev ∈ exEvents (seqRun (fun ep => seqRun (processPart w ep) ep.parts)
            (w.episodes acct library)) := by rw [hq]; exact h'
        obtain ⟨ep2, _, h3⟩ := exEvents_seqRun _ _ h2
        obtain ⟨part, _, h4⟩ := exEvents_seqRun _ _ h3
        exact processPart_benign w ep2 part relDate h4
    | ok e =>
      rw [hq] at h
      simp only [exEvents, List.mem_cons, List.mem_append, List.mem_singleton,
        List.not_mem_nil, or_false] at h
      rcases h with rfl | rfl | h' | rfl
      · rfl
      · simp [benign]
      · have h2 : ev ∈ exEvents (seqRun (fun ep => seqRun (processPart w ep) ep.parts)
            (w.episodes acct library)) := by rw [hq]; exact h'
        obtain ⟨ep2, _, h3⟩ := exEvents_seqRun _ _ h2
        obtain ⟨part, _, h4⟩ := exEvents_seqRun _ _ h3
        exact processPart_benign w ep2 part relDate h4
      · rfl

theorem processAccount_benign (w : World) (cfg : Config) (relDate acct : String)
    {ev : Event} (h : ev ∈ exEvents (processAccount w cfg relDate acct)) :
    benign relDate ev = true := by
  cases hc : w.serverConnectOk acct with
  | false =>
    rw [processAccount_badConnect w cfg relDate acct hc] at h
    simp only [exEvents, List.mem_cons, List.not_mem_nil, or_false] at h
    rcases h with rfl | rfl <;> rfl
  | true =>
    rw [processAccount_goodConnect w cfg relDate acct hc] at h
    cases hq : seqRun (processLibrary w cfg relDate acct) cfg.libraryNames with
    | error e =>
      rw [hq] at h
      simp only [exEvents, List.mem_cons] at h
      rcases h with rfl | h'
      · rfl
      · have h2 : ev ∈ exEvents (seqRun (processLibrary w cfg relDate acct) cfg.libraryNames) := by
          rw [hq]; exact h'
        obtain ⟨lib, _, h3⟩ := exEvents_seqRun _ _ h2
        exact processLibrary_benign w cfg relDate acct lib h3
    | ok e =>
      rw [hq] at h
      simp only [exEvents, List.mem_cons] at h
      rcases h with rfl | h'
      · rfl
      · have h2 : ev ∈ exEvents (seqRun (processLibrary w cfg relDate acct) cfg.libraryNames) := by
          rw [hq]; exact h'
        obtain ⟨lib, _, h3⟩ := exEvents_seqRun _ _ h2
        exact processLibrary_benign w cfg relDate acct lib h3

theorem resolveAttemptEvents_benign (w : World) (users : List String) (relDate : String)
    {ev : Event} (h : ev ∈ resolveAttemptEvents w users) : benign relDate ev = true := by
  induction users with
  | nil => simp [resolveAttemptEvents] at h
  | cons u rest ih =>
    simp only [resolveAttemptEvents] at h
    rcases List.mem_cons.mp h with rfl | h'
    · rfl
    · split at h'
      · exact ih h'
      · simp at h'

theorem setupAccounts_benign (w : World) (cfg : Config) (relDate : String)
    {ev : Event} (h : ev ∈ (setupAccounts w cfg).2) : benign relDate ev = true := by
  cases hx : cfg.extraUsers with
  | none =>
    rw [setupAccounts_noExtras w cfg hx] at h
    simp at h
  | some users =>
    cases users with
    | nil =>
      rw [setupAccounts_emptyExtras w cfg hx] at h
      simp at h
    | cons u0 urest =>
      cases hf : firstUnresolved w (u0 :: urest) with
      | none =>
        rw [setupAccounts_allResolve w cfg hx (by simp) hf] at h
        rcases List.mem_append.mp h with h' | h'
        · exact resolveAttemptEvents_benign w _ relDate h'
        · obtain ⟨u, _, rfl⟩ := List.mem_map.mp h'
          rfl
      | some u =>
        rw [setupAccounts_failResolve w cfg hx hf] at h
        rcases List.mem_append.mp h with h' | h'
        · exact resolveAttemptEvents_benign w _ relDate h'
        · rcases List.mem_singleton.mp h' with rfl
          rfl

theorem runAuthed_benign (w : World) (cfg : Config) (relDate : String)
    {ev : Event} (h : ev ∈ (runAuthed w cfg relDate).2) : benign relDate ev = true := by
  cases ha : w.primaryAuthOk with
  | false =>
    rw [runAuthed_authFail w cfg relDate ha] at h
    simp only [List.mem_cons, List.not_mem_nil, or_false] at h
    rcases h with rfl | rfl <;> rfl
  | true =>
    cases hr : w.shokoReachable with
    | false =>
      rw [runAuthed_shokoDown w cfg relDate ha hr] at h
      simp only [List.mem_cons, List.mem_append, List.not_mem_nil, or_false] at h
      rcases h with rfl | h' | rfl | rfl
      · rfl
      · exact setupAccounts_benign w cfg relDate h'
      · rfl
      · rfl
    | true =>
      cases hb : shokoStatusBad w.shokoStatus with
      | true =>
        rw [runAuthed_badStatus w cfg relDate ha hr hb] at h
        simp only [List.mem_cons, List.mem_append, List.not_mem_nil, or_false] at h
        rcases h with rfl | h' | rfl | rfl
        · rfl
        · exact setupAccounts_benign w cfg relDate h'
        · rfl
        · rfl
      | false =>
        cases hq : seqRun (processAccount w cfg relDate) (setupAccounts w cfg).1 with
        | error e =>
          rw [runAuthed_abort w cfg relDate ha hr hb hq] at h
          simp only [List.mem_cons, List.mem_append] at h
          rcases h with rfl | h' | rfl | rfl | h'
          · rfl
          · exact setupAccounts_benign w cfg relDate h'
          · rfl
          · rfl
          · have h2 : ev ∈ exEvents (seqRun (processAccount w cfg relDate)
                (setupAccounts w cfg).1) := by rw [hq]; exact h'
            obtain ⟨acct, _, h3⟩ := exEvents_seqRun _ _ h2
            exact processAccount_benign w cfg relDate acct h3
        | ok e =>
          rw [runAuthed_ok w cfg relDate ha hr hb hq] at h
          simp only [List.mem_cons, List.mem_append, List.mem_singleton,
            List.not_mem_nil, or_false] at h
          rcases h with rfl | h' | rfl | rfl | h' | rfl
          · rfl
          · exact setupAccounts_benign w cfg relDate h'
          · rfl
          · rfl
          · have h2 : ev ∈ exEvents (seqRun (processAccount w cfg relDate)
                (setupAccounts w cfg).1) := by rw [hq]; exact h'
            obtain ⟨acct, _, h3⟩ := exEvents_seqRun _ _ h2
            exact processAccount_benign w cfg relDate acct h3
          · rfl

/-! ### Observations on traces -/

theorem posts_cons_post (i : Nat) (v : Bool) (tr : List Event) :
    posts (Event.net (NetCall.episodeWatchedPost i v) :: tr) = (i, v) :: posts tr := rfl

theorem posts_cons_lookup (k : String) (tr : List Event) :
    posts (Event.net (NetCall.pathLookup k) :: tr) = posts tr := rfl

theorem posts_cons_info (s : String) (tr : List Event) :
    posts (Event.info s :: tr) = posts tr := rfl

theorem posts_postEvents (ids : List EpisodeIDEntry) :
    posts (ids.map fun e => Event.net (NetCall.episodeWatchedPost e.ID true))
      = ids.map fun e => (e.ID, true) := by
  induction ids with
  | nil => rfl
  | cons a rest ih => rw [List.map_cons, posts_cons_post, ih, List.map_cons]

theorem mem_posts {tr : List Event} {p : Nat × Bool} (h : p ∈ posts tr) :
    Event.net (NetCall.episodeWatchedPost p.1 p.2) ∈ tr := by
  obtain ⟨ev, hev, hm⟩ := List.mem_filterMap.mp h
  cases ev with
  | err s => simp at hm
  | info s => simp at hm
  | net c =>
    cases c with
    | episodeWatchedPost i v =>
      simp only [Option.some.injEq] at hm
      rw [← hm]
      exact hev
    | plexAuth => simp at hm
    | userResolve a => simp at hm
    | switchUser a => simp at hm
    | shokoAuth => simp at hm
    | serverConnect a => simp at hm
    | searchEpisodes a l r => simp at hm
    | pathLookup k => simp at hm

theorem run_events_benign (w : World) (cfg : Config) (argv : List String) {ev : Event}
    (h : ev ∈ (run w cfg argv).2) : ∃ rd, benign rd ev = true := by
  cases argv with
  | nil => exact ⟨"999y", runAuthed_benign w cfg "999y" h⟩
  | cons a rest =>
    cases rest with
    | nil =>
      cases hv : validRelativeDate a with
      | true =>
        rw [run_oneArg_valid w cfg hv] at h
        exact ⟨a, runAuthed_benign w cfg a h⟩
      | false =>
        rw [run_oneArg_invalid w cfg hv] at h
        rcases List.mem_singleton.mp h with rfl
        exact ⟨"", rfl⟩
    | cons b rest2 =>
      rw [run_manyArgs] at h
      exact ⟨"999y", runAuthed_benign w cfg "999y" h⟩

theorem benign_not_falsePost {rd : String} {ev : Event} (h : benign rd ev = true) :
    isFalsePost ev = false := by
  cases ev with
  | err s => rfl
  | info s => rfl
  | net c =>
    cases c with
    | episodeWatchedPost i v =>
      have hv : v = true := h
      simp [isFalsePost, hv]
    | plexAuth => rfl
    | userResolve a => rfl
    | switchUser a => rfl
    | shokoAuth => rfl
    | serverConnect a => rfl
    | searchEpisodes a l r => rfl
    | pathLookup k => rfl

/-! ### C1 -/

/-- Claim C1: For every lookup result whose watched tri-state field is a
definite value (`some true` or `some false`), the per-file relay step
issues no write call to the tracking server: it performs only the lookup
GET, and the processing is a no-op with respect to tracking-server
writes. -/
theorem definite_watched_state_no_write (w : World) (ep : Episode) (part : Part)
    {m : FileMatch} {rest : List FileMatch} {b : Bool}
    (hl : w.lookup (filepathKey part.file) = m :: rest) (hw : m.Watched = some b) :
    processPart w ep part
        = Except.ok [Event.net (NetCall.pathLookup (filepathKey part.file))] ∧
    posts (exEvents (processPart w ep part)) = [] := by
  refine ⟨processPart_definite w ep part hl hw, ?_⟩
  rw [processPart_definite w ep part hl hw]
  rfl

/-- A sample configuration for instantiating the hypothesised theorems. -/
def demoConfig : Config :=
  { serverName := "PlexServer", libraryNames := ["Anime"], extraUsers := none }

/-- A sample episode. -/
def demoEpisode : Episode :=
  { title := "Ep1", parts := [{ file := "/mnt/anime/Show/S01E01.mkv" }] }

/-- A lookup match with a definite watched state. -/
def demoMatchWatched : FileMatch :=
  { Watched := some true, SeriesIDs := [{ EpisodeIDs := [{ ID := 5 }] }] }

/-- A world whose lookups all return `demoMatchWatched`. -/
def demoWorldWatched : World where
  primaryAuthOk := true
  resolveUserOk := fun _ => true
  shokoReachable := true
  shokoStatus := none
  serverConnectOk := fun _ => true
  sectionOk := fun _ _ => true
  episodes := fun _ _ => [demoEpisode]
  lookup := fun _ => [demoMatchWatched]
  postOk := fun _ => true

theorem definite_watched_state_no_write_witness :
    processPart demoWorldWatched demoEpisode { file := "/mnt/anime/Show/S01E01.mkv" }
        = Except.ok [Event.net (NetCall.pathLookup
            (filepathKey "/mnt/anime/Show/S01E01.mkv"))] ∧
    posts (exEvents (processPart demoWorldWatched demoEpisode
        { file := "/mnt/anime/Show/S01E01.mkv" })) = [] :=
  @definite_watched_state_no_write demoWorldWatched demoEpisode
    { file := "/mnt/anime/Show/S01E01.mkv" } demoMatchWatched [] true rfl rfl

/-! ### C2 -/

/-- Claim C2: Every write call the reconciler issues to the tracking server
sets the watched flag to `true`: for every world, configuration and
argument vector, the run's trace contains no `Watched/false` post, and
every post it does contain carries the value `true`. -/
theorem writes_always_mark_watched_true (w : World) (cfg : Config) (argv : List String) :
    (run w cfg argv).2.filter isFalsePost = [] ∧
    ((posts (run w cfg argv).2).all fun p => p.2) = true := by
  constructor
  · rw [List.filter_eq_nil_iff]
    intro ev hev
    obtain ⟨rd, hb⟩ := run_events_benign w cfg argv hev
    simp [benign_not_falsePost hb]
  · rw [List.all_eq_true]
    intro p hp
    obtain ⟨rd, hb⟩ := run_events_benign w cfg argv (mem_posts hp)
    exact hb

/-! ### C3 -/

theorem countP_pair_map (ids : List EpisodeIDEntry) (i : Nat)
    (hnd : (ids.map fun e => e.ID).Nodup) (hmem : i ∈ ids.map fun e => e.ID) :
    (ids.map fun e => ((e.ID, true) : Nat × Bool)).countP (fun p => decide (p = (i, true)))
      = 1 := by
  induction ids with
  | nil => simp at hmem
  | cons a l ih =>
    rw [List.map_cons] at hnd hmem ⊢
    rw [List.countP_cons]
    obtain ⟨hnotin, hnd2⟩ := List.nodup_cons.mp hnd
    rcases List.mem_cons.mp hmem with rfl | hm
    · have hz : (l.map fun e => ((e.ID, true) : Nat × Bool)).countP
          (fun p => decide (p = (a.ID, true))) = 0 := by
        rw [List.countP_eq_zero]
        intro p hp
        obtain ⟨e, he, rfl⟩ := List.mem_map.mp hp
        simp only [decide_eq_true_eq]
        intro hcontr
        have h5 : e.ID = a.ID := congrArg Prod.fst hcontr
        exact hnotin (List.mem_map.mpr ⟨e, he, h5⟩)
      simp [hz]
    · have hne : ((a.ID, true) : Nat × Bool) ≠ (i, true) := by
        intro hcontr
        have h5 : a.ID = i := congrArg Prod.fst hcontr
        exact hnotin (by rw [h5]; exact hm)
      rw [ih hnd2 hm]
      simp [hne]

/-- Claim C3: When the first lookup match carries the unknown watched
sentinel and every post succeeds, the relay step issues exactly the write
calls `(id, true)` for the episode-id entries of the *first* series group,
in order — one write per entry — and no write for any id outside that
group (in particular none for ids appearing only in later series
groups). -/
theorem unknown_state_relays_first_group (w : World) (ep : Episode) (part : Part)
    {m : FileMatch} {rest : List FileMatch} {g : SeriesIDGroup} {grest : List SeriesIDGroup}
    (hl : w.lookup (filepathKey part.file) = m :: rest) (hw : m.Watched = none)
    (hs : m.SeriesIDs = g :: grest)
    (hok : ∀ e ∈ g.EpisodeIDs, w.postOk e.ID = true) :
    posts (exEvents (processPart w ep part)) = g.EpisodeIDs.map (fun e => (e.ID, true)) ∧
    (∀ i v, (i, v) ∈ posts (exEvents (processPart w ep part)) →
      i ∈ g.EpisodeIDs.map fun e => e.ID) ∧
    ((g.EpisodeIDs.map fun e => e.ID).Nodup → ∀ e ∈ g.EpisodeIDs,
      (posts (exEvents (processPart w ep part))).countP
        (fun p => decide (p = (e.ID, true))) = 1) := by
  have hrelay := relayLoop_all_ok w g.EpisodeIDs hok
  have heq : processPart w ep part = Except.ok
      (Event.net (NetCall.pathLookup (filepathKey part.file)) ::
        Event.info ("Relaying: " ++ filepathKey part.file ++ " → " ++ ep.title) ::
        (g.EpisodeIDs.map fun e => Event.net (NetCall.episodeWatchedPost e.ID true))) := by
    rw [processPart_relay w ep part hl hw hs, hrelay]
    rfl
  have hposts : posts (exEvents (processPart w ep part))
      = g.EpisodeIDs.map fun e => (e.ID, true) := by
    rw [heq]
    show posts (Event.net (NetCall.pathLookup (filepathKey part.file)) ::
      Event.info ("Relaying: " ++ filepathKey part.file ++ " → " ++ ep.title) ::
      (g.EpisodeIDs.map fun e => Event.net (NetCall.episodeWatchedPost e.ID true)))
        = g.EpisodeIDs.map fun e => (e.ID, true)
    rw [posts_cons_lookup, posts_cons_info, posts_postEvents]
  refine ⟨hposts, ?_, ?_⟩
  · intro i v hmem
    rw [hposts] at hmem
    obtain ⟨e, he, heq2⟩ := List.mem_map.mp hmem
    have hid : e.ID = i := congrArg Prod.fst heq2
    rw [← hid]
    exact List.mem_map.mpr ⟨e, he, rfl⟩
  · intro hnd e he
    rw [hposts]
    exact countP_pair_map g.EpisodeIDs e.ID hnd (List.mem_map.mpr ⟨e, he, rfl⟩)

/-- A lookup match with the unknown watched sentinel and two series
groups. -/
def demoMatchUnknown : FileMatch :=
  { Watched := none,
    SeriesIDs := [{ EpisodeIDs := [{ ID := 12 }, { ID := 13 }] }, { EpisodeIDs := [{ ID := 99 }] }] }

/-- A world whose lookups all return `demoMatchUnknown`. -/
def demoWorldUnknown : World where
  primaryAuthOk := true
  resolveUserOk := fun _ => true
  shokoReachable := true
  shokoStatus := none
  serverConnectOk := fun _ => true
  sectionOk := fun _ _ => true
  episodes := fun _ _ => [demoEpisode]
  lookup := fun _ => [demoMatchUnknown]
  postOk := fun _ => true

theorem unknown_state_relays_first_group_witness :
    posts (exEvents (processPart demoWorldUnknown demoEpisode
        { file := "/mnt/anime/Show/S01E01.mkv" })) = [(12, true), (13, true)] := by
  have h := @unknown_state_relays_first_group demoWorldUnknown demoEpisode
    { file := "/mnt/anime/Show/S01E01.mkv" } demoMatchUnknown []
    { EpisodeIDs := [{ ID := 12 }, { ID := 13 }] } [{ EpisodeIDs := [{ ID := 99 }] }]
    rfl rfl rfl (fun e _ => rfl)
  rw [h.1]
  rfl


/-! ### C4 -/

theorem takeWhile_all_append {p : Char → Bool} {l1 : List Char} {x : Char} {l2 : List Char}
    (h : ∀ c ∈ l1, p c = true) (hx : p x = false) :
    (l1 ++ x :: l2).takeWhile p = l1 := by
  induction l1 with
  | nil => simp [List.takeWhile_cons, hx]
  | cons a l ih =>
    rw [List.cons_append, List.takeWhile_cons, h a (by simp), if_pos rfl,
      ih (fun c hc => h c (by simp [hc]))]

/-- Claim C4: For a file part path, the derived filename-suffix key is the
path separator followed by the path's final component; on the spec's
example, the key of `/mnt/anime/Show/S01E01.mkv` is `/S01E01.mkv`, the
stored path `/data/Show/S01E01.mkv` matches it by suffix comparison, and
`/data/Show/XS01E01.mkv` does not. -/
theorem filepath_suffix_key_spec (d n : String) (h : ∀ c ∈ n.toList, c ≠ '/') :
    filepathKey (d ++ "/" ++ n) = "/" ++ n ∧
    filepathKey "/mnt/anime/Show/S01E01.mkv" = "/S01E01.mkv" ∧
    shokoSuffixMatch "/data/Show/S01E01.mkv" (filepathKey "/mnt/anime/Show/S01E01.mkv") = true ∧
    shokoSuffixMatch "/data/Show/XS01E01.mkv" (filepathKey "/mnt/anime/Show/S01E01.mkv")
      = false := by
  refine ⟨?_, rfl, rfl, rfl⟩
  have hlist : (d ++ "/" ++ n).toList = d.toList ++ ('/' :: n.toList) := by
    have h1 : (d ++ "/" ++ n).toList = (d.toList ++ ['/']) ++ n.toList := rfl
    rw [h1, List.append_assoc]
    rfl
  have hall : ∀ c ∈ n.toList.reverse, (c != '/') = true := fun c hc =>
    bne_iff_ne.mpr (h c (List.mem_reverse.mp hc))
  have hx : (('/' : Char) != '/') = false := by decide
  have hbase : basename (d ++ "/" ++ n) = n := by
    rw [basename, hlist, List.reverse_append, List.reverse_cons, List.append_assoc]
    have h2 : (['/'] ++ d.toList.reverse) = '/' :: d.toList.reverse := rfl
    rw [h2, takeWhile_all_append hall hx, List.reverse_reverse]
    rfl
  rw [filepathKey, hbase]

theorem filepath_suffix_key_spec_witness :
    (∀ c ∈ "S01E01.mkv".toList, c ≠ '/') ∧
    filepathKey ("/data/Show" ++ "/" ++ "S01E01.mkv") = "/" ++ "S01E01.mkv" := by
  have h : ∀ c ∈ "S01E01.mkv".toList, c ≠ '/' := by decide
  exact ⟨h, (filepath_suffix_key_spec "/data/Show" "S01E01.mkv" h).1⟩

/-! ### C5 -/

/-- Counterexample to C5 as stated: the argument `"2w\n"` is not of the
form `<integer 1–999><unit>` — its final character is a newline — yet
Python's `$` anchor matches just before a trailing newline, so the script
accepts it, proceeds to authenticate against Plex (a network call), and
completes with exit code 0 instead of exiting 1. -/
theorem invalid_arg_newline_counterexample :
    ¬ specRelForm "2w\n" ∧
    validRelativeDate "2w\n" = true ∧
    (run demoWorldWatched demoConfig ["2w\n"]).1 = 0 ∧
    Event.net NetCall.plexAuth ∈ (run demoWorldWatched demoConfig ["2w\n"]).2 := by
  refine ⟨?_, by decide, by decide, by decide⟩
  intro h
  exact absurd (specRelForm_validRelChars h) (by decide)

/-- Claim C5, amended: a single CLI argument that neither is of the form
`<integer 1–999><unit>` with unit in {m, h, d, w, mon, y} nor is such a
form followed by a single trailing newline (which Python's `$` anchor also
accepts) makes the program exit with status 1 before issuing any network
call: the trace holds no network event at all, only the error line. -/
theorem invalid_relative_date_exits_before_network (w : World) (cfg : Config) (s : String)
    (h1 : ¬ specRelForm s) (h2 : ¬ specRelFormNL s) :
    (run w cfg [s]).1 = 1 ∧
    (run w cfg [s]).2.filter isNet = [] ∧
    (run w cfg [s]).2 = [Event.err "Failed: Invalid Argument (Relative Date)"] := by
  have hv : validRelativeDate s = false := by
    cases hv : validRelativeDate s with
    | true =>
      rcases (validRelativeDate_iff s).mp hv with h | h
      · exact absurd h h1
      · exact absurd h h2
    | false => rfl
  rw [run_oneArg_invalid w cfg hv]
  exact ⟨rfl, rfl, rfl⟩

theorem invalid_relative_date_exits_before_network_witness :
    ¬ specRelForm "5x" ∧ ¬ specRelFormNL "5x" ∧
    (run demoWorldWatched demoConfig ["5x"]).1 = 1 ∧
    (run demoWorldWatched demoConfig ["5x"]).2.filter isNet = [] := by
  have hv : ¬ (validRelativeDate "5x" = true) := by decide
  have h1 : ¬ specRelForm "5x" := fun h =>
    absurd ((validRelativeDate_iff "5x").mpr (Or.inl h)) hv
  have h2 : ¬ specRelFormNL "5x" := fun h =>
    absurd ((validRelativeDate_iff "5x").mpr (Or.inr h)) hv
  have h3 := invalid_relative_date_exits_before_network demoWorldWatched demoConfig "5x" h1 h2
  exact ⟨h1, h2, h3.1, h3.2.1⟩

/-! ### C6 -/

/-- Claim C6: A valid relative-date argument is passed through unmodified as
the `lastViewedAt` lower-bound filter of every episode search of the run,
and an omitted argument leaves the default `999y` (an effectively
unbounded, all-time window) as that filter. -/
theorem valid_relative_date_passthrough (w : World) (cfg : Config) (s : String)
    (h : specRelForm s) :
    run w cfg [s] = runAuthed w cfg s ∧
    (∀ rd ∈ searchFilters (run w cfg [s]).2, rd = s) ∧
    run w cfg [] = runAuthed w cfg "999y" ∧
    (∀ rd ∈ searchFilters (run w cfg []).2, rd = "999y") := by
  have hv : validRelativeDate s = true := (validRelativeDate_iff s).mpr (Or.inl h)
  have key : ∀ r : String, ∀ rd ∈ searchFilters (runAuthed w cfg r).2, rd = r := by
    intro r rd hrd
    obtain ⟨ev, hev, hm⟩ := List.mem_filterMap.mp hrd
    have hb := runAuthed_benign w cfg r hev
    cases ev with
    | err s2 => simp at hm
    | info s2 => simp at hm
    | net c =>
      cases c with
      | searchEpisodes a l r2 =>
        simp only [Option.some.injEq] at hm
        subst hm
        exact eq_of_beq hb
      | plexAuth => simp at hm
      | userResolve a => simp at hm
      | switchUser a => simp at hm
      | shokoAuth => simp at hm
      | serverConnect a => simp at hm
      | episodeWatchedPost i v => simp at hm
      | pathLookup k => simp at hm
  refine ⟨run_oneArg_valid w cfg hv, ?_, run_noArg w cfg, ?_⟩
  · rw [run_oneArg_valid w cfg hv]
    exact key s
  · rw [run_noArg w cfg]
    exact key "999y"

theorem valid_relative_date_passthrough_witness :
    specRelForm "2w" ∧
    run demoWorldWatched demoConfig ["2w"] = runAuthed demoWorldWatched demoConfig "2w" ∧
    (∀ rd ∈ searchFilters (run demoWorldWatched demoConfig ["2w"]).2, rd = "2w") := by
  have h : specRelForm "2w" := ⟨2, ['w'], by omega, by omega, by decide, rfl⟩
  have h2 := valid_relative_date_passthrough demoWorldWatched demoConfig "2w" h
  exact ⟨h, h2.1, h2.2.1⟩

/-! ### C10 -/

/-- Claim C10: With two or more CLI arguments, no validation happens: the
arguments (valid or invalid) are silently ignored, no error is reported,
and the run is identical to the argument-less run with the default
all-time window `999y`. -/
theorem extra_args_skip_validation (w : World) (cfg : Config) (a b : String)
    (rest : List String) :
    run w cfg (a :: b :: rest) = runAuthed w cfg "999y" ∧
    run w cfg (a :: b :: rest) = run w cfg [] := ⟨rfl, rfl⟩


/-! ### C7 -/

theorem countErr_resolveAttemptEvents (w : World) (users : List String) :
    countErr (resolveAttemptEvents w users) = 0 := by
  induction users with
  | nil => rfl
  | cons u rest ih =>
    rw [resolveAttemptEvents]
    by_cases hu : w.resolveUserOk u = true
    · rw [if_pos hu]
      simpa [countErr, List.countP_cons] using ih
    · rw [if_neg hu]
      rfl

/-- A configuration with two extra users. -/
def cfg7 : Config :=
  { serverName := "PlexServer", libraryNames := ["Anime"], extraUsers := some ["alice", "bob"] }

/-- A world in which the extra user `bob` fails to resolve while `alice`
resolves fine. -/
def w7 : World where
  primaryAuthOk := true
  resolveUserOk := fun u => u != "bob"
  shokoReachable := true
  shokoStatus := none
  serverConnectOk := fun _ => true
  sectionOk := fun _ _ => true
  episodes := fun _ _ => []
  lookup := fun _ => [demoMatchUnknown]
  postOk := fun _ => true

/-- Counterexample to C7 as stated: `alice` is a resolvable extra user, yet
after `bob` fails to resolve the run does **not** continue with her — no
server connection is ever made for `alice`; the run continues with the
primary account alone (one logged error, exit 0). -/
theorem extra_user_failure_counterexample :
    w7.resolveUserOk "alice" = true ∧
    w7.resolveUserOk "bob" = false ∧
    (run w7 cfg7 []).1 = 0 ∧
    countErr (run w7 cfg7 []).2 = 1 ∧
    Event.net (NetCall.serverConnect "alice") ∉ (run w7 cfg7 []).2 := by decide

/-- Claim C7, amended: When the primary account authenticates and some
configured extra user fails to resolve, exactly one recoverable error is
logged for the failure, but **all** configured extra users are dropped
(the resolution runs inside a single `try`, so the exception fires before
any extra account is appended): the run continues with the primary account
alone and, provided the remaining processing raises no uncaught exception,
completes with exit code 0. -/
theorem extra_user_failure_drops_all_extras (w : World) (cfg : Config)
    {users : List String} {u : String} {evs : List Event}
    (hextra : cfg.extraUsers = some users)
    (hfail : firstUnresolved w users = some u)
    (hauth : w.primaryAuthOk = true)
    (hreach : w.shokoReachable = true)
    (hstatus : shokoStatusBad w.shokoStatus = false)
    (hmain : processAccount w cfg "999y" "admin" = Except.ok evs) :
    (setupAccounts w cfg).1 = ["admin"] ∧
    countErr (setupAccounts w cfg).2 = 1 ∧
    (run w cfg []).1 = 0 := by
  have hsa := setupAccounts_failResolve w cfg hextra hfail
  refine ⟨by rw [hsa], ?_, ?_⟩
  · rw [hsa]
    show countErr (resolveAttemptEvents w users ++ [Event.err ("Failed: " ++ u)]) = 1
    rw [countErr, List.countP_append]
    have h1 := countErr_resolveAttemptEvents w users
    rw [countErr] at h1
    rw [h1]
    rfl
  · rw [run_noArg]
    have hseq : seqRun (processAccount w cfg "999y") (setupAccounts w cfg).1
        = Except.ok (evs ++ []) := by
      rw [hsa]
      show seqRun (processAccount w cfg "999y") ["admin"] = Except.ok (evs ++ [])
      simp only [seqRun, hmain]
    rw [runAuthed_ok w cfg "999y" hauth hreach hstatus hseq]

theorem extra_user_failure_drops_all_extras_witness :
    (setupAccounts w7 cfg7).1 = ["admin"] ∧
    countErr (setupAccounts w7 cfg7).2 = 1 ∧
    (run w7 cfg7 []).1 = 0 :=
  extra_user_failure_drops_all_extras w7 cfg7 rfl rfl rfl rfl rfl rfl

/-! ### C8 -/

/-- An episode with two file parts; the first is untracked on Shoko in
`w8`. -/
def ep8 : Episode :=
  { title := "Ep", parts := [{ file := "/a/first.mkv" }, { file := "/a/second.mkv" }] }

/-- A world whose lookup returns the empty array for `/first.mkv` and an
unknown-state match for every other key. -/
def w8 : World where
  primaryAuthOk := true
  resolveUserOk := fun _ => true
  shokoReachable := true
  shokoStatus := none
  serverConnectOk := fun _ => true
  sectionOk := fun _ _ => true
  episodes := fun _ _ => [ep8]
  lookup := fun k => if k = "/first.mkv" then [] else [demoMatchUnknown]
  postOk := fun _ => true

/-- Counterexample to C8 as stated: when the first file part is not
matched/tracked at all (empty lookup result), the failure is **not**
caught and logged — the run aborts with exit code 1, the next file part is
never looked up, and the unmatched-file hint is never printed. -/
theorem empty_lookup_aborts_counterexample :
    (run w8 demoConfig []).1 = 1 ∧
    Event.net (NetCall.pathLookup "/second.mkv") ∉ (run w8 demoConfig []).2 ∧
    Event.err relayHint ∉ (run w8 demoConfig []).2 := by decide

/-- Claim C8, amended: Relay failures inside the `try` block are caught and
processing continues: a nonempty lookup result never aborts the step, a
missing series group yields the logged unmatched-file hint, and a failing
post in the relay loop likewise logs the hint. But an *empty* lookup
result (the file not being matched/tracked on the tracking server at all)
raises outside the `try` block and aborts the run instead of being caught
and skipped. -/
theorem relay_error_handling_amended (w : World) (ep : Episode) (part : Part) :
    (w.lookup (filepathKey part.file) ≠ [] →
      ∃ evs, processPart w ep part = Except.ok evs) ∧
    (∀ m rest, w.lookup (filepathKey part.file) = m :: rest → m.Watched = none →
      m.SeriesIDs = [] →
      processPart w ep part = Except.ok
        [Event.net (NetCall.pathLookup (filepathKey part.file)),
         Event.info ("Relaying: " ++ filepathKey part.file ++ " → " ++ ep.title),
         Event.err relayHint]) ∧
    (∀ m rest g grest, w.lookup (filepathKey part.file) = m :: rest → m.Watched = none →
      m.SeriesIDs = g :: grest → (relayLoop w g.EpisodeIDs).2 = false →
      Event.err relayHint ∈ exEvents (processPart w ep part)) ∧
    (w.lookup (filepathKey part.file) = [] →
      processPart w ep part
        = Except.error [Event.net (NetCall.pathLookup (filepathKey part.file))]) := by
  refine ⟨?_, ?_, ?_, fun hl => processPart_empty w ep part hl⟩
  · intro hne
    cases hl : w.lookup (filepathKey part.file) with
    | nil => exact absurd hl hne
    | cons m rest =>
      cases hw : m.Watched with
      | some b => exact ⟨_, processPart_definite w ep part hl hw⟩
      | none =>
        cases hs : m.SeriesIDs with
        | nil => exact ⟨_, processPart_unmatched w ep part hl hw hs⟩
        | cons g grest =>
          rw [processPart_relay w ep part hl hw hs]
          cases hloop : (relayLoop w g.EpisodeIDs).2 with
          | true => exact ⟨_, rfl⟩
          | false => exact ⟨_, rfl⟩
  · intro m rest hl hw hs
    exact processPart_unmatched w ep part hl hw hs
  · intro m rest g grest hl hw hs hloop
    rw [processPart_relay w ep part hl hw hs, hloop]
    simp [exEvents]

theorem relay_error_handling_amended_witness :
    processPart w8 ep8 { file := "/a/first.mkv" }
        = Except.error [Event.net (NetCall.pathLookup (filepathKey "/a/first.mkv"))] ∧
    (∃ evs, processPart w8 ep8 { file := "/a/second.mkv" } = Except.ok evs) :=
  ⟨(relay_error_handling_amended w8 ep8 { file := "/a/first.mkv" }).2.2.2 rfl,
   (relay_error_handling_amended w8 ep8 { file := "/a/second.mkv" }).1 (by decide)⟩

/-! ### C9 -/

theorem processLibrary_search_mem (w : World) (cfg : Config) (relDate acct library : String)
    (hsec : w.sectionOk acct library = true) :
    Event.net (NetCall.searchEpisodes acct library relDate)
      ∈ exEvents (processLibrary w cfg relDate acct library) := by
  rw [processLibrary_goodSection w cfg relDate acct library hsec]
  cases hq : seqRun (fun ep => seqRun (processPart w ep) ep.parts) (w.episodes acct library) with
  | error e => simp [exEvents]
  | ok e => simp [exEvents]

/-- Claim C9: In a multi-library configuration, a configured library name
that does not resolve for the account is skipped with a logged error,
every other library is still processed (its episode search is issued), and
the run ends with exit code 0. -/
theorem missing_library_skipped (w : World) (cfg : Config)
    {libs1 libs2 : List String} {badLib : String}
    (hlibs : cfg.libraryNames = libs1 ++ badLib :: libs2)
    (hextra : cfg.extraUsers = none)
    (hauth : w.primaryAuthOk = true)
    (hreach : w.shokoReachable = true)
    (hstatus : shokoStatusBad w.shokoStatus = false)
    (hconn : w.serverConnectOk "admin" = true)
    (hbad : w.sectionOk "admin" badLib = false)
    (hgood : ∀ lib ∈ libs1 ++ libs2, w.sectionOk "admin" lib = true)
    (hok : ∀ lib ∈ libs1 ++ libs2,
      ∃ e, processLibrary w cfg "999y" "admin" lib = Except.ok e) :
    (run w cfg []).1 = 0 ∧
    Event.err ("Failed: " ++ badLib) ∈ (run w cfg []).2 ∧
    (∀ lib ∈ libs1 ++ libs2,
      Event.net (NetCall.searchEpisodes "admin" lib "999y") ∈ (run w cfg []).2) := by
  have hall : ∀ lib ∈ cfg.libraryNames,
      ∃ e, processLibrary w cfg "999y" "admin" lib = Except.ok e := by
    intro lib hlib
    rw [hlibs] at hlib
    rcases List.mem_append.mp hlib with h1 | h1
    · exact hok lib (List.mem_append.mpr (Or.inl h1))
    · rcases List.mem_cons.mp h1 with rfl | h2
      · exact ⟨_, processLibrary_badSection w cfg "999y" "admin" lib hbad⟩
      · exact hok lib (List.mem_append.mpr (Or.inr h2))
  obtain ⟨e, hseq, hmem⟩ :=
    seqRun_ok_of_all (processLibrary w cfg "999y" "admin") cfg.libraryNames hall
  have hacct : processAccount w cfg "999y" "admin"
      = Except.ok (Event.net (NetCall.serverConnect "admin") :: e) := by
    rw [processAccount_goodConnect w cfg "999y" "admin" hconn, hseq]
  have hsa : setupAccounts w cfg = (["admin"], []) := setupAccounts_noExtras w cfg hextra
  have hseq2 : seqRun (processAccount w cfg "999y") (setupAccounts w cfg).1
      = Except.ok ((Event.net (NetCall.serverConnect "admin") :: e) ++ []) := by
    rw [hsa]
    show seqRun (processAccount w cfg "999y") ["admin"] = _
    simp only [seqRun, hacct]
  rw [run_noArg, runAuthed_ok w cfg "999y" hauth hreach hstatus hseq2]
  have hbadmem : badLib ∈ cfg.libraryNames := by
    rw [hlibs]
    exact List.mem_append.mpr (Or.inr (by simp))
  have herr : Event.err ("Failed: " ++ badLib) ∈ e := by
    apply hmem badLib hbadmem
    rw [processLibrary_badSection w cfg "999y" "admin" badLib hbad]
    simp [exEvents]
  refine ⟨rfl, ?_, ?_⟩
  · simp [hsa, herr]
  · intro lib hlib
    have hlibmem : lib ∈ cfg.libraryNames := by
      rw [hlibs]
      rcases List.mem_append.mp hlib with h1 | h1
      · exact List.mem_append.mpr (Or.inl h1)
      · exact List.mem_append.mpr (Or.inr (List.mem_cons.mpr (Or.inr h1)))
    have hsch : Event.net (NetCall.searchEpisodes "admin" lib "999y") ∈ e :=
      hmem lib hlibmem _ (processLibrary_search_mem w cfg "999y" "admin" lib (hgood lib hlib))
    simp [hsa, hsch]

/-- A three-library configuration whose middle library does not exist. -/
def cfg9 : Config :=
  { serverName := "PlexServer", libraryNames := ["Lib1", "Bad", "Lib2"], extraUsers := none }

/-- A world in which the library section `Bad` cannot be resolved. -/
def w9 : World where
  primaryAuthOk := true
  resolveUserOk := fun _ => true
  shokoReachable := true
  shokoStatus := none
  serverConnectOk := fun _ => true
  sectionOk := fun _ lib => lib != "Bad"
  episodes := fun _ _ => []
  lookup := fun _ => [demoMatchUnknown]
  postOk := fun _ => true

theorem missing_library_skipped_witness :
    (run w9 cfg9 []).1 = 0 ∧
    Event.err ("Failed: " ++ "Bad") ∈ (run w9 cfg9 []).2 ∧
    (∀ lib ∈ ["Lib1"] ++ ["Lib2"],
      Event.net (NetCall.searchEpisodes "admin" lib "999y") ∈ (run w9 cfg9 []).2) :=
  @missing_library_skipped w9 cfg9 ["Lib1"] ["Lib2"] "Bad" rfl rfl rfl rfl rfl rfl rfl
    (by decide)
    (by
      intro lib hlib
      simp only [List.cons_append, List.nil_append, List.mem_cons,
        List.not_mem_nil, or_false] at hlib
      rcases hlib with rfl | rfl
      · exact ⟨_, rfl⟩
      · exact ⟨_, rfl⟩)

end WatchedSync
